import Mathlib

/-!
Verification development for the PySyft torch hook
(src/syft/frameworks/torch/hook.py).

The file shallowly embeds the interception and dispatch core of the
TorchHook class: the lazily derived argument-unwrapping rules, the
dispatch trampoline closure produced by get_overloaded_method, the
eligibility computation, the native renaming step, the mixin attribute
copy, the rewritten tensor constructor, and the marker-guarded
constructor of TorchHook itself.  Each definition cites the source
lines it embeds.
-/

set_option autoImplicit false

/-! ## Python argument values

Positional arguments reaching the trampoline are modelled by `Arg`.
`base` stands for any plain object (an int, a native tensor, ...),
identified by a token.  `ptr` is a PointerTensor carrying its `child`
attribute, `logT` is an object whose class name is the string LogTensor
(the second wrapped kind recognised by build_rule, hook.py line 173),
also carrying a `child`.  `list` and `tup` are Python lists and tuples
of arguments. -/

inductive Arg : Type where
  | base : Nat → Arg
  | ptr : Arg → Arg
  | logT : Arg → Arg
  | list : List Arg → Arg
  | tup : List Arg → Arg

/-- Accessing `x.child` (hook.py line 193, the unwrap lambda): defined
for the two wrapped kinds, an AttributeError (`none`) otherwise. -/
def childOpt : Arg → Option Arg
  | Arg.ptr c => some c
  | Arg.logT c => some c
  | _ => none

/-- The elements of an ordered-sequence argument; `[]` for a
non-sequence (indexing such a value in a fold fails). -/
def argElems : Arg → List Arg
  | Arg.list as => as
  | Arg.tup as => as
  | _ => []

/-! ## Unwrap rules

`build_rule` (hook.py lines 168-176) maps an argument to a nested
structure of 0s and 1s, mirroring the sequence kind: a Python list of
rules is `rlist`, a tuple of rules is `rtup`, `1` (a wrapped value) is
`unwrap`, `0` is `pass_`. -/

inductive Rule : Type where
  | pass_ : Rule
  | unwrap : Rule
  | rlist : List Rule → Rule
  | rtup : List Rule → Rule

mutual

/-- hook.py lines 168-176: `build_rule(args)`.  Lists and tuples are
translated elementwise preserving the sequence kind; a PointerTensor or
an object of class name LogTensor maps to 1 (`unwrap`); anything else
maps to 0 (`pass_`). -/
def build_rule : Arg → Rule
  | Arg.list as => Rule.rlist (buildRules as)
  | Arg.tup as => Rule.rtup (buildRules as)
  | Arg.ptr _ => Rule.unwrap
  | Arg.logT _ => Rule.unwrap
  | Arg.base _ => Rule.pass_

/-- Elementwise `build_rule` over a sequence of arguments. -/
def buildRules : List Arg → List Rule
  | [] => []
  | a :: as => build_rule a :: buildRules as

end

/-! ## Compiled argument hooks

The closure produced by `build_args_hook` (hook.py lines 187-198) is a
fold function applied to a fixed list of per-slot lambdas.  Because the
`folds` table only maps the arities 1, 2 and 3, every nested closure
closes over exactly 1, 2 or 3 lambdas; `Lam` is the first-order
representation of such a closure.  `ident` is `lambda i: i` (pass
through), `unwrap` is `lambda i: i.child`, `nestedK` is
`lambda x: k_fold(lambdas, x)` with its `k` captured lambdas. -/

inductive Lam : Type where
  | ident : Lam
  | unwrap : Lam
  | nested1 : Lam → Lam
  | nested2 : Lam → Lam → Lam
  | nested3 : Lam → Lam → Lam → Lam
deriving DecidableEq

/-- hook.py lines 196-197: `folds = {1: one_fold, 2: two_fold,
3: three_fold}; f = folds[len(lambdas)]`.  A missing key (arity 0 or at
least 4) raises KeyError, modelled by `none`. -/
def foldsLookup : List Lam → Option Lam
  | [l0] => some (Lam.nested1 l0)
  | [l0, l1] => some (Lam.nested2 l0 l1)
  | [l0, l1, l2] => some (Lam.nested3 l0 l1 l2)
  | _ => none

mutual

/-- The per-slot lambda of the comprehension in hook.py lines 188-195:
`(lambda i: i) if not r else build_args_hook(a, r) if
isinstance(r, (list, tuple)) else (lambda i: i.child)`.  A falsy rule
(0, or an empty list or tuple) gives the identity, a non-empty sequence
rule recurses (the recursive `build_args_hook` body is inlined here:
compile the zipped slots, then select the fold by arity), and the rule
1 gives the child access. -/
def mkLam : Arg → Rule → Option Lam
  | _, Rule.pass_ => some Lam.ident
  | _, Rule.unwrap => some Lam.unwrap
  | a, Rule.rlist rs =>
    if rs.isEmpty then some Lam.ident
    else (zipCompile (argElems a) rs).bind foldsLookup
  | a, Rule.rtup rs =>
    if rs.isEmpty then some Lam.ident
    else (zipCompile (argElems a) rs).bind foldsLookup
termination_by a r => (sizeOf r, 0)

/-- The list comprehension over `zip(args, rules)` in hook.py lines
188-195: evaluates every slot eagerly; a failure (KeyError in a nested
`build_args_hook`) propagates.  `zip` stops at the shorter sequence. -/
def zipCompile : List Arg → List Rule → Option (List Lam)
  | _, [] => some []
  | [], _ :: _ => some []
  | a :: as, r :: rs =>
    match mkLam a r with
    | none => none
    | some l =>
      match zipCompile as rs with
      | none => none
      | some ls => some (l :: ls)
termination_by as rs => (sizeOf rs, 1)

end

/-- hook.py lines 187-198: `build_args_hook(args, rules)` builds the
lambda list from the zipped slots and returns the closure
`lambda x: f(lambdas, x)` where `f = folds[len(lambdas)]`. -/
def build_args_hook (args : List Arg) (rules : List Rule) : Option Lam :=
  (zipCompile args rules).bind foldsLookup

/-- Applying a compiled closure to a value.  `nestedK` is the closure
`lambda x: k_fold(lambdas, x)`; `one_fold` (hook.py lines 178-179)
returns `lambdas[0](args[0])` bare, while `two_fold` and `three_fold`
(lines 181-185) return Python tuples.  Out-of-range indexing and a
missing `child` attribute are `none`. -/
def applyLam : Lam → Arg → Option Arg
  | Lam.ident, i => some i
  | Lam.unwrap, i => childOpt i
  | Lam.nested1 l0, x =>
    match (argElems x)[0]? with
    | none => none
    | some x0 => applyLam l0 x0
  | Lam.nested2 l0 l1, x =>
    match (argElems x)[0]? with
    | none => none
    | some x0 =>
      match applyLam l0 x0 with
      | none => none
      | some r0 =>
        match (argElems x)[1]? with
        | none => none
        | some x1 =>
          match applyLam l1 x1 with
          | none => none
          | some r1 => some (Arg.tup [r0, r1])
  | Lam.nested3 l0 l1 l2, x =>
    match (argElems x)[0]? with
    | none => none
    | some x0 =>
      match applyLam l0 x0 with
      | none => none
      | some r0 =>
        match (argElems x)[1]? with
        | none => none
        | some x1 =>
          match applyLam l1 x1 with
          | none => none
          | some r1 =>
            match (argElems x)[2]? with
            | none => none
            | some x2 =>
              match applyLam l2 x2 with
              | none => none
              | some r2 => some (Arg.tup [r0, r1, r2])

/-! ## The dispatch trampoline -/

/-- A Python value sitting in call position.  `overloaded_attr`
(hook.py line 209) evaluates `attr(*new_args)` where `attr` is the
operation-name string captured by `get_overloaded_method`; `strVal`
models that string object.  `fnVal` models a genuine function object
(such as a preserved `native_` original), which the source never places
in call position inside the trampoline. -/
inductive PyCallable : Type where
  | strVal : String → PyCallable
  | fnVal : String → PyCallable
deriving DecidableEq

/-- Whether a value in call position is callable; calling a
non-callable raises TypeError.  A Python str is not callable. -/
def isCallable : PyCallable → Bool
  | PyCallable.strVal _ => false
  | PyCallable.fnVal _ => true

/-- The call the trampoline attempts after transforming the arguments:
the value in call position and the transformed arguments that would be
star-unpacked into it. -/
structure CallAttempt : Type where
  callee : PyCallable
  newArgs : Arg

/-- The mutable state read and written by the trampoline:
`hook_self.args_hook_for_overloaded_attr` (hook.py line 104), a
process-wide dict from operation name to cached closure, plus a
derivation counter instrumenting how many times the rule-derivation
branch (lines 202-205) has run. -/
structure HookState : Type where
  cache : List (String × Lam)
  derivations : Nat

/-- hook.py lines 200-209: the trampoline `overloaded_attr`.  On a
cache miss it derives the rule from the actual arguments of this call
(`build_rule`), compiles the closure (`build_args_hook`), and stores it
under the operation name; it then fetches the cached closure, applies
it to the argument tuple, and evaluates `attr(*new_args)` - where
`attr` is the name string itself, so the value placed in call position
is `PyCallable.strVal attr`.  `none` models an uncaught exception
(KeyError during rule construction, or an indexing/attribute failure
while applying the cached closure). -/
def overloaded_attr (hs : HookState) (attr : String) (args : List Arg) :
    Option (HookState × CallAttempt) :=
  match
    (match hs.cache.lookup attr with
     | some _ => some hs
     | none =>
       match build_args_hook args (buildRules args) with
       | none => none
       | some hookFn =>
         some (HookState.mk (hs.cache.concat (attr, hookFn)) (hs.derivations + 1))) with
  | none => none
  | some hs1 =>
    match hs1.cache.lookup attr with
    | none => none
    | some hookFn =>
      match applyLam hookFn (Arg.tup args) with
      | none => none
      | some newArgs => some (hs1, CallAttempt.mk (PyCallable.strVal attr) newArgs)

/-- First-call transformation in isolation: derive the rule from the
positional arguments (hook.py line 202), compile the closure (line
204), and apply it to the argument tuple (line 208). -/
def hookTransform (args : List Arg) : Option Arg :=
  match build_args_hook args (buildRules args) with
  | none => none
  | some l => applyLam l (Arg.tup args)

/-! ## Statement helpers -/

/-- An argument that is neither a Python list nor a tuple. -/
def flatArg : Arg → Bool
  | Arg.list _ => false
  | Arg.tup _ => false
  | _ => true

/-- An argument classified as wrapped by build_rule. -/
def wrappedArg : Arg → Bool
  | Arg.ptr _ => true
  | Arg.logT _ => true
  | _ => false

/-- Slotwise effect of the unwrap rule on a flat argument: a wrapped
value is replaced by its child, anything else is passed through. -/
def unwrapStep : Arg → Arg
  | Arg.ptr c => c
  | Arg.logT c => c
  | a => a

/-- Whether a value is a Python tuple. -/
def isTupArg : Arg → Bool
  | Arg.tup _ => true
  | _ => false

/-- Whether a value is a Python list. -/
def isListArg : Arg → Bool
  | Arg.list _ => true
  | _ => false

/-! ## Shape characterization of rule compilation

`mkLam` inspects its argument only to recurse through the slots of a
sequence, and on every reachable call the rule was itself derived from
that argument by `build_rule`.  `shapeLam` recomputes the compiled
closure from the rule alone; the lemma `zipCompile_shape` below proves
that on reachable inputs the two agree, which is the precise sense in
which rule derivation is deterministic in the argument shape. -/

mutual

/-- The compiled closure as a function of the derived rule only. -/
def shapeLam : Rule → Option Lam
  | Rule.pass_ => some Lam.ident
  | Rule.unwrap => some Lam.unwrap
  | Rule.rlist rs =>
    if rs.isEmpty then some Lam.ident
    else (shapeLams rs).bind foldsLookup
  | Rule.rtup rs =>
    if rs.isEmpty then some Lam.ident
    else (shapeLams rs).bind foldsLookup
termination_by r => (sizeOf r, 0)

/-- Elementwise `shapeLam`, propagating failure. -/
def shapeLams : List Rule → Option (List Lam)
  | [] => some []
  | r :: rs =>
    match shapeLam r with
    | none => none
    | some l =>
      match shapeLams rs with
      | none => none
      | some ls => some (l :: ls)
termination_by rs => (sizeOf rs, 1)

end

/-! ## TorchHook construction (hook.py lines 63-113)

The constructor is modelled as the trace of the state-changing steps it
performs, in program order, together with which local worker the hook
ends up with.  The inputs are whether the torch module already carries
the `torch_hooked` marker attribute (line 79) and whether a local
worker was passed in (line 89). -/

inductive InitStep : Type where
  | warnAlreadyHooked
  | setMarker
  | setSyftTorchAttributes
  | setupLocalWorker
  | addRegistrationToInit
  | hookProperties
  | computeAutoOverload
  | renameNativeFunctions
  | addMethodsToTensor
  | addMethodsToPointer
  | setGlobalLocalWorker
deriving DecidableEq

/-- Which worker object ends up in `self.local_worker`. -/
inductive WorkerRef : Type where
  | provided
  | freshVirtual
  | globalExisting
deriving DecidableEq

/-- The observable outcome of `TorchHook.__init__`. -/
structure InitResult : Type where
  steps : List InitStep
  localWorker : WorkerRef
deriving DecidableEq

/-- hook.py lines 63-113.  If `hasattr(torch, "torch_hooked")` the
constructor logs a warning, sets `self.local_worker =
syft.local_worker` and returns (lines 79-82).  Otherwise it sets the
marker (line 84), installs `syft.torch` (line 87), resolves or creates
the local worker (lines 89-100), and runs `_hook_native_tensor` -
`_add_registration_to___init__` (line 132), `_hook_properties` (line
135), `_which_methods_should_we_auto_overload` (line 139),
`_rename_native_functions` (line 144), `_add_methods_from__torch_tensor`
on the tensor type (line 147) - then copies the methods onto
PointerTensor (line 109) and publishes `syft.local_worker`
(line 113). -/
def torchHookInit (alreadyHooked : Bool) (workerProvided : Bool) : InitResult :=
  if alreadyHooked then
    InitResult.mk [InitStep.warnAlreadyHooked] WorkerRef.globalExisting
  else
    InitResult.mk
      [InitStep.setMarker, InitStep.setSyftTorchAttributes,
       InitStep.setupLocalWorker, InitStep.addRegistrationToInit,
       InitStep.hookProperties, InitStep.computeAutoOverload,
       InitStep.renameNativeFunctions, InitStep.addMethodsToTensor,
       InitStep.addMethodsToPointer, InitStep.setGlobalLocalWorker]
      (if workerProvided then WorkerRef.provided else WorkerRef.freshVirtual)

/-! ## Eligibility computation (hook.py lines 302-340) -/

/-- One candidate name from `dir(syft_type)`, together with the facts
the loop body observes about the attribute of the same name on the
native tensor type: `onTensor` is `hasattr(tensor_type, attr)`,
`isDesc` is `inspect.ismethoddescriptor(lit)`, `isFunc` is
`isinstance(lit, types.FunctionType)`, `hasHookServiceQualname` is
whether the string HookService occurs in `lit.__qualname__` (False when
the qualname attribute is missing, per the except branch on lines
333-334), and `isBase` is `attr in dir(object)`. -/
structure Candidate : Type where
  name : String
  onTensor : Bool
  isDesc : Bool
  isFunc : Bool
  hasHookServiceQualname : Bool
  isBase : Bool
deriving DecidableEq

/-- hook.py line 335: `re.match("native*", attr) is not None`.  The
Kleene star applies to the final letter e, and `re.match` anchors at
the start only, so the test holds exactly when the name starts with the
five letters nativ. -/
def nativeNameMatch (s : String) : Bool := "nativ".data.isPrefixOf s.data

/-- hook.py lines 317-340: the loop of
`_which_methods_should_we_auto_overload`, parameterized by the
configured exclusion set `syft.torch.exclude` (defined outside this
file) and the candidate list `dir(syft_type)`.  A name is appended when
it is not excluded, is present on the tensor type, and satisfies
`(is_desc or (is_func and not is_service_func)) and not is_base and not
is_overloaded`. -/
def which_methods_should_we_auto_overload
    (exclude : List String) : List Candidate → List String
  | [] => []
  | c :: cs =>
    if exclude.contains c.name then
      which_methods_should_we_auto_overload exclude cs
    else if !c.onTensor then
      which_methods_should_we_auto_overload exclude cs
    else if (c.isDesc || (c.isFunc && !c.hasHookServiceQualname))
        && !c.isBase && !(nativeNameMatch c.name) then
      c.name :: which_methods_should_we_auto_overload exclude cs
    else
      which_methods_should_we_auto_overload exclude cs

/-- The eligibility test exactly as the claim states it, written from
the claim for comparison with the code: the service-artifact exclusion
applies to every candidate (not only to plain functions), and the
alternate-name convention is the native underscore prefix. -/
def claimed_overload_condition (exclude : List String) (c : Candidate) : Bool :=
  !(exclude.contains c.name) && c.onTensor && (c.isDesc || c.isFunc)
    && !c.hasHookServiceQualname && !c.isBase
    && !("native_".data.isPrefixOf c.name.data)

/-- The corrected slotwise eligibility condition: the service-artifact
test only disqualifies plain functions, and the renamed-name test is
the nativ prefix. -/
def eligible_condition (exclude : List String) (c : Candidate) : Bool :=
  !(exclude.contains c.name) && c.onTensor
    && (c.isDesc || (c.isFunc && !c.hasHookServiceQualname))
    && !c.isBase && !(nativeNameMatch c.name)

/-! ## Attribute tables (hook.py lines 342-402)

A type whose method table is introspected and mutated is modelled as a
function from attribute names to optional values: `none` means the name
is absent (`hasattr` false, not in `dir`), `some v` means the attribute
is bound to `v`. -/

/-- A Python attribute value: the None object (the inert placeholder
installed by the renaming step) or a callable identified by a token. -/
inductive Val : Type where
  | pyNone : Val
  | fn : Nat → Val
deriving DecidableEq

/-- A method table. -/
def Table : Type := String → Option Val

/-- `setattr(tensor_type, n, v)`. -/
def tableSet (t : Table) (n : String) (v : Val) : Table :=
  fun m => if m = n then some v else t m

/-- One iteration of the loop in `_rename_native_functions` (hook.py
lines 349-357): read the current binding `lit`, copy it to the
alternate name `native_` ++ attr unless that name already exists in
the table, then set the primary binding to None.  Every eligible name
satisfied `hasattr` when the list was computed, so the read is defined;
the `none` branch of the read (unreachable on such inputs) leaves the
table unchanged. -/
def renameStep (tbl : Table) (attr : String) : Table :=
  let lit := tbl attr
  let tbl1 :=
    if (tbl ("native_" ++ attr)).isSome then tbl
    else
      match lit with
      | some v => tableSet tbl ("native_" ++ attr) v
      | none => tbl
  tableSet tbl1 attr Val.pyNone

/-- hook.py lines 342-357: `_rename_native_functions`, iterating
`renameStep` over the eligible names in order. -/
def rename_native_functions (t : Table) (names : List String) : Table :=
  names.foldl renameStep t

/-- hook.py lines 370-397: the fixed exclusion list of
`_add_methods_from__torch_tensor`, copied verbatim. -/
def mixin_exclude : List String :=
  ["__class__", "__delattr__", "__dir__", "__doc__", "__dict__",
   "__format__", "__getattribute__", "__hash__", "__init__",
   "__init_subclass__", "__weakref__", "__ne__", "__new__",
   "__reduce__", "__reduce_ex__", "__setattr__", "__sizeof__",
   "__subclasshook__", "_get_type", "__str__", "__repr__", "__eq__",
   "__gt__", "__ge__", "__lt__", "__le__"]

/-- One iteration of the loop in `_add_methods_from__torch_tensor`
(hook.py lines 399-402): a name in the exclusion list is skipped,
otherwise the attribute value is copied onto the target table.  The
copied value is read with `getattr(TorchTensor, attr)`; every call site
of this routine passes TorchTensor as the reference type, so `ref`
models TorchTensor and the iterated names model `dir(syft_type)` for
that same type.  A name whose read fails (absent from `ref`,
unreachable when the names enumerate the attributes of `ref`) is
skipped. -/
def copyStep (ref : Table) (t : Table) (attr : String) : Table :=
  if mixin_exclude.contains attr then t
  else
    match ref attr with
    | some v => tableSet t attr v
    | none => t

/-- hook.py lines 398-402: the copying loop of
`_add_methods_from__torch_tensor`, iterating `copyStep` over
`dir(syft_type)`. -/
def add_methods_from_torch_tensor
    (ref : Table) (dirRef : List String) (target : Table) : Table :=
  dirRef.foldl (copyStep ref) target

/-! ## The rewritten constructor (hook.py lines 213-245) -/

/-- The arguments `new___init__` forwards to the uniform initializer
(`initialize_tensor` in syft.frameworks.torch.tensors.abstract, an
external collaborator of this file): the hook, the instance, the
keyword id, the `torch_tensor` flag captured from
`_add_registration_to___init__`, and the remaining positional and
keyword construction arguments. -/
structure InitTensorCall : Type where
  cls : Nat
  id : Option Nat
  torch_tensor : Bool
  init_args : List Nat
  init_kwargs : List (String × Nat)
deriving DecidableEq

/-- What running the replacement constructor does: the single call to
the uniform initializer, and the worker a registration was performed
with (`none` because the `register` branch, hook.py lines 242-243, is
commented out). -/
structure NewInitResult : Type where
  initCall : InitTensorCall
  registeredWith : Option Nat
deriving DecidableEq

/-- hook.py lines 231-245: `new___init__(cls, *args, owner=None,
id=None, register=True, **kwargs)`.  It invokes `initialize_tensor`
with the hook, the instance, the id, the captured `torch_tensor` flag
and the remaining arguments; the registration of the instance with
`owner` is commented out, so `owner` and `register` are accepted and
then never read. -/
def new___init__ (torch_tensor : Bool) (cls : Nat)
    (owner : Option Nat) (id : Option Nat) (register : Bool)
    (args : List Nat) (kwargs : List (String × Nat)) : NewInitResult :=
  NewInitResult.mk (InitTensorCall.mk cls id torch_tensor args kwargs) none
/-! ## Helper lemmas -/

theorem buildRules_length (as : List Arg) : (buildRules as).length = as.length := by
  induction as with
  | nil => rfl
  | cons a as ih => simp [buildRules, ih]

theorem zipCompile_some_length : ∀ (as : List Arg) (rs : List Rule) (ls : List Lam),
    zipCompile as rs = some ls → ls.length = min as.length rs.length := by
  intro as
  induction as with
  | nil =>
    intro rs ls h
    cases rs <;> simp [zipCompile] at h <;> simp [← h]
  | cons a as ih =>
    intro rs ls h
    cases rs with
    | nil =>
      simp [zipCompile] at h
      simp [← h]
    | cons r rs =>
      rw [zipCompile] at h
      cases hm : mkLam a r with
      | none => rw [hm] at h; simp at h
      | some l =>
        rw [hm] at h
        cases hz : zipCompile as rs with
        | none => rw [hz] at h; simp at h
        | some ls2 =>
          rw [hz] at h
          simp only [Option.some.injEq] at h
          have hlen := ih rs ls2 hz
          simp [← h, hlen, Nat.succ_min_succ]

theorem mkLam_flat (a : Arg) (h : flatArg a = true) :
    mkLam a (build_rule a) =
      some (if wrappedArg a then Lam.unwrap else Lam.ident) := by
  cases a <;> simp_all [flatArg, wrappedArg, build_rule, mkLam]

theorem applyLam_flatStep (a : Arg) :
    applyLam (if wrappedArg a then Lam.unwrap else Lam.ident) a =
      some (unwrapStep a) := by
  cases a <;> simp [wrappedArg, applyLam, childOpt, unwrapStep]

theorem zipCompile_flat (es : List Arg) (h : ∀ a ∈ es, flatArg a = true) :
    zipCompile es (buildRules es) =
      some (es.map (fun a => if wrappedArg a then Lam.unwrap else Lam.ident)) := by
  induction es with
  | nil => simp [zipCompile, buildRules]
  | cons a as ih =>
    rw [buildRules, zipCompile, mkLam_flat a (h a (by simp)),
      ih (fun x hx => h x (by simp [hx]))]
    rfl

theorem build_apply_flat (es : List Arg) (x : Arg)
    (hflat : ∀ a ∈ es, flatArg a = true)
    (hlen : es.length = 2 ∨ es.length = 3)
    (hx : argElems x = es) :
    ∃ l, build_args_hook es (buildRules es) = some l ∧
      applyLam l x = some (Arg.tup (es.map unwrapStep)) := by
  rcases hlen with h | h
  · obtain ⟨a, b, rfl⟩ := List.length_eq_two.mp h
    refine ⟨Lam.nested2 (if wrappedArg a then Lam.unwrap else Lam.ident)
        (if wrappedArg b then Lam.unwrap else Lam.ident), ?_, ?_⟩
    · rw [build_args_hook, zipCompile_flat _ hflat]
      rfl
    · simp [applyLam, hx, applyLam_flatStep]
  · obtain ⟨a, b, c, rfl⟩ := List.length_eq_three.mp h
    refine ⟨Lam.nested3 (if wrappedArg a then Lam.unwrap else Lam.ident)
        (if wrappedArg b then Lam.unwrap else Lam.ident)
        (if wrappedArg c then Lam.unwrap else Lam.ident), ?_, ?_⟩
    · rw [build_args_hook, zipCompile_flat _ hflat]
      rfl
    · simp [applyLam, hx, applyLam_flatStep]

theorem hookTransform_flat (args : List Arg)
    (hflat : ∀ a ∈ args, flatArg a = true)
    (hlen : args.length = 2 ∨ args.length = 3) :
    hookTransform args = some (Arg.tup (args.map unwrapStep)) := by
  obtain ⟨l, hb, ha⟩ := build_apply_flat args (Arg.tup args) hflat hlen rfl
  rw [hookTransform, hb]
  exact ha

/-- C2 (amended): for a call with two or three positional arguments,
none of which is a list or a tuple, applying the rule derived from that
call produces a transformed argument tuple in which every wrapped slot
- in particular a pointer at position k - holds that value s child,
and every non-wrapped slot is identical to the corresponding input
argument.  (A one-argument call instead yields the transformed value
bare, see the counterexample.) -/
theorem C2_unwrap_slotwise (args : List Arg) (k : Nat) (c : Arg)
    (hflat : ∀ a ∈ args, flatArg a = true)
    (hlen : args.length = 2 ∨ args.length = 3)
    (hk : args[k]? = some (Arg.ptr c)) :
    hookTransform args = some (Arg.tup (args.map unwrapStep)) ∧
    (args.map unwrapStep)[k]? = some c ∧
    (∀ (j : Nat) (a : Arg), args[j]? = some a → wrappedArg a = false →
      (args.map unwrapStep)[j]? = some a) := by
  refine ⟨hookTransform_flat args hflat hlen, ?_, ?_⟩
  · rw [List.getElem?_map, hk]
    rfl
  · intro j a hj hw
    rw [List.getElem?_map, hj]
    cases a <;> simp_all [wrappedArg, unwrapStep]

theorem C2_witness :
    hookTransform [Arg.ptr (Arg.base 7), Arg.base 5] =
      some (Arg.tup ([Arg.ptr (Arg.base 7), Arg.base 5].map unwrapStep)) ∧
    ([Arg.ptr (Arg.base 7), Arg.base 5].map unwrapStep)[0]? = some (Arg.base 7) := by
  have h := C2_unwrap_slotwise [Arg.ptr (Arg.base 7), Arg.base 5] 0 (Arg.base 7)
    (by intro a ha; simp at ha; rcases ha with rfl | rfl <;> rfl)
    (Or.inl rfl) rfl
  exact ⟨h.1, h.2.1⟩

/-- C2 counterexample: the claim as stated fails for a one-argument
call.  With a single wrapped positional argument the derived closure is
one_fold, which returns the transformed value bare: the result is the
child itself, not a tuple holding it. -/
theorem C2_cex :
    hookTransform [Arg.ptr (Arg.base 3)] = some (Arg.base 3) ∧
    isTupArg (Arg.base 3) = false := by
  constructor
  · simp [hookTransform, build_args_hook, buildRules, build_rule, zipCompile, mkLam,
      foldsLookup, applyLam, argElems, childOpt]
  · rfl

theorem buildRules_isEmpty (es : List Arg) (h : es ≠ []) :
    (buildRules es).isEmpty = false := by
  cases es with
  | nil => exact absurd rfl h
  | cons a as => rfl

theorem mkLam_seq_list (es : List Arg) (h : es ≠ []) :
    mkLam (Arg.list es) (build_rule (Arg.list es)) =
      build_args_hook es (buildRules es) := by
  rw [build_rule, mkLam, buildRules_isEmpty es h, build_args_hook]
  rfl

theorem mkLam_seq_tup (es : List Arg) (h : es ≠ []) :
    mkLam (Arg.tup es) (build_rule (Arg.tup es)) =
      build_args_hook es (buildRules es) := by
  rw [build_rule, mkLam, buildRules_isEmpty es h, build_args_hook]
  rfl

/-- C3 (amended): an ordered-sequence argument with two or three flat
elements is rebuilt preserving per-element order and length and
unwrapping exactly the elements classified as wrapped, but the rebuilt
sequence is always a Python tuple - a list does not stay a list (see
the counterexample); a one-element sequence is rebuilt as its single
transformed element, bare. -/
theorem C3_sequence_rebuilt (es : List Arg)
    (hflat : ∀ a ∈ es, flatArg a = true)
    (hlen : es.length = 2 ∨ es.length = 3) :
    (∃ l, mkLam (Arg.list es) (build_rule (Arg.list es)) = some l ∧
      applyLam l (Arg.list es) = some (Arg.tup (es.map unwrapStep))) ∧
    (∃ l, mkLam (Arg.tup es) (build_rule (Arg.tup es)) = some l ∧
      applyLam l (Arg.tup es) = some (Arg.tup (es.map unwrapStep))) ∧
    (es.map unwrapStep).length = es.length ∧
    (∀ (i : Nat) (x c : Arg), es[i]? = some x → childOpt x = some c →
      (es.map unwrapStep)[i]? = some c) ∧
    (∀ (i : Nat) (x : Arg), es[i]? = some x → wrappedArg x = false →
      (es.map unwrapStep)[i]? = some x) := by
  have hne : es ≠ [] := by
    intro he
    subst he
    rcases hlen with h | h <;> simp at h
  refine ⟨?_, ?_, by simp, ?_, ?_⟩
  · obtain ⟨l, hb, ha⟩ := build_apply_flat es (Arg.list es) hflat hlen rfl
    exact ⟨l, by rw [mkLam_seq_list es hne]; exact hb, ha⟩
  · obtain ⟨l, hb, ha⟩ := build_apply_flat es (Arg.tup es) hflat hlen rfl
    exact ⟨l, by rw [mkLam_seq_tup es hne]; exact hb, ha⟩
  · intro i x c hi hc
    rw [List.getElem?_map, hi]
    cases x <;> simp_all [childOpt, unwrapStep]
  · intro i x hi hw
    rw [List.getElem?_map, hi]
    cases x <;> simp_all [wrappedArg, unwrapStep]

theorem C3_witness :
    ([Arg.ptr (Arg.base 1), Arg.base 2].map unwrapStep).length = 2 ∧
    mkLam (Arg.list [Arg.ptr (Arg.base 1), Arg.base 2])
        (build_rule (Arg.list [Arg.ptr (Arg.base 1), Arg.base 2])) =
      some (Lam.nested2 Lam.unwrap Lam.ident) := by
  have h := C3_sequence_rebuilt [Arg.ptr (Arg.base 1), Arg.base 2]
    (by intro a ha; simp at ha; rcases ha with rfl | rfl <;> rfl)
    (Or.inl rfl)
  obtain ⟨⟨l, hl, ha⟩, -, hlen2, -, -⟩ := h
  refine ⟨hlen2, ?_⟩
  have hval : l = Lam.nested2 Lam.unwrap Lam.ident := by
    have := hl
    rw [mkLam_seq_list _ (by simp)] at this
    rw [build_args_hook, zipCompile_flat _ (by intro a ha; simp at ha; rcases ha with rfl | rfl <;> rfl)] at this
    simp [wrappedArg, foldsLookup] at this
    exact this.symm
  rw [← hval]
  exact hl

/-- C3 counterexample: a list argument is rebuilt as a tuple.  In the
call add1(9, [pointer, 2]) the derived rule rebuilds the second slot as
the Python tuple (pointer.child, 2): the original list type is lost. -/
theorem C3_cex :
    hookTransform [Arg.base 9, Arg.list [Arg.ptr (Arg.base 1), Arg.base 2]] =
      some (Arg.tup [Arg.base 9, Arg.tup [Arg.base 1, Arg.base 2]]) ∧
    isListArg (Arg.tup [Arg.base 1, Arg.base 2]) = false := by
  constructor
  · simp [hookTransform, build_args_hook, buildRules, build_rule, zipCompile, mkLam,
      foldsLookup, applyLam, argElems, childOpt]
  · rfl

theorem foldsLookup_out_of_range (ls : List Lam)
    (h : ls.length = 0 ∨ 4 ≤ ls.length) : foldsLookup ls = none := by
  rcases ls with - | ⟨a, - | ⟨b, - | ⟨c, - | ⟨d, tl⟩⟩⟩⟩ <;> simp_all [foldsLookup]

theorem build_args_hook_arity_none (args : List Arg)
    (h : args.length = 0 ∨ 4 ≤ args.length) :
    build_args_hook args (buildRules args) = none := by
  rw [build_args_hook]
  cases hz : zipCompile args (buildRules args) with
  | none => rfl
  | some ls =>
    have hl : ls.length = args.length := by
      have := zipCompile_some_length args (buildRules args) ls hz
      simpa [buildRules_length] using this
    simp [foldsLookup_out_of_range ls (by omega)]

theorem buildRules_append (xs ys : List Arg) :
    buildRules (xs ++ ys) = buildRules xs ++ buildRules ys := by
  induction xs with
  | nil => rfl
  | cons a as ih => rw [List.cons_append, buildRules, ih, buildRules, List.cons_append]

theorem mkLam_list_flat_big (es : List Arg)
    (hlen : 4 ≤ es.length) (hflat : ∀ e ∈ es, flatArg e = true) :
    mkLam (Arg.list es) (build_rule (Arg.list es)) = none := by
  have hne : es ≠ [] := by
    intro he
    subst he
    simp at hlen
  rw [build_rule, mkLam, buildRules_isEmpty es hne]
  rw [show argElems (Arg.list es) = es from rfl, zipCompile_flat es hflat]
  have hfl : foldsLookup
      (es.map (fun a => if wrappedArg a then Lam.unwrap else Lam.ident)) = none :=
    foldsLookup_out_of_range _ (Or.inr (by rw [List.length_map]; exact hlen))
  simp [hfl]

theorem zipCompile_slot_none (pre : List Arg) (a : Arg) (post : List Arg)
    (ha : mkLam a (build_rule a) = none) :
    zipCompile (pre ++ a :: post) (buildRules (pre ++ a :: post)) = none := by
  induction pre with
  | nil =>
    rw [List.nil_append, buildRules, zipCompile, ha]
  | cons p ps ih =>
    rw [List.cons_append, buildRules, zipCompile]
    cases hp : mkLam p (build_rule p) with
    | none => rfl
    | some l => rw [ih]

/-- C4: the fold table of build_args_hook maps only the arities 1, 2
and 3, so a call to an intercepted operation with zero positional
arguments, or with four or more, fails at rule construction (the
missing-key lookup returns none) and the trampoline produces no
transformed arguments and no call; likewise a nested list argument
with four or more elements fails at rule construction. -/
theorem C4_arity_guard :
    (∀ (hs : HookState) (attr : String) (args : List Arg),
      args.length = 0 ∨ 4 ≤ args.length →
      hs.cache.lookup attr = none →
      build_args_hook args (buildRules args) = none ∧
      overloaded_attr hs attr args = none) ∧
    (∀ (pre post es : List Arg), 4 ≤ es.length →
      (∀ e ∈ es, flatArg e = true) →
      build_args_hook (pre ++ Arg.list es :: post)
        (buildRules (pre ++ Arg.list es :: post)) = none) := by
  constructor
  · intro hs attr args hlen hfresh
    have hb := build_args_hook_arity_none args hlen
    refine ⟨hb, ?_⟩
    rw [overloaded_attr, hfresh, hb]
  · intro pre post es hlen hflat
    rw [build_args_hook,
      zipCompile_slot_none pre (Arg.list es) post (mkLam_list_flat_big es hlen hflat)]
    rfl

theorem C4_witness :
    (build_args_hook [] (buildRules []) = none ∧
      overloaded_attr (HookState.mk [] 0) "add" [] = none) ∧
    build_args_hook
      [Arg.list [Arg.base 1, Arg.base 2, Arg.base 3, Arg.base 4]]
      (buildRules [Arg.list [Arg.base 1, Arg.base 2, Arg.base 3, Arg.base 4]]) = none :=
  ⟨C4_arity_guard.1 (HookState.mk [] 0) "add" [] (Or.inl rfl) rfl,
    C4_arity_guard.2 [] [] [Arg.base 1, Arg.base 2, Arg.base 3, Arg.base 4]
      (by decide) (by decide)⟩

theorem shape_agree : ∀ (n : Nat),
    (∀ a : Arg, sizeOf a ≤ n → mkLam a (build_rule a) = shapeLam (build_rule a)) ∧
    (∀ as : List Arg, sizeOf as ≤ n →
      zipCompile as (buildRules as) = shapeLams (buildRules as)) := by
  intro n
  induction n with
  | zero =>
    constructor
    · intro a h
      exact absurd h (by cases a <;> simp)
    · intro as h
      exact absurd h (by cases as <;> simp)
  | succ n ih =>
    constructor
    · intro a h
      cases a with
      | base k => simp [build_rule, mkLam, shapeLam]
      | ptr c => simp [build_rule, mkLam, shapeLam]
      | logT c => simp [build_rule, mkLam, shapeLam]
      | list es =>
        have hes : sizeOf es ≤ n := by simp at h; omega
        rw [build_rule, mkLam, shapeLam]
        rw [show argElems (Arg.list es) = es from rfl]
        rw [ih.2 es hes]
      | tup es =>
        have hes : sizeOf es ≤ n := by simp at h; omega
        rw [build_rule, mkLam, shapeLam]
        rw [show argElems (Arg.tup es) = es from rfl]
        rw [ih.2 es hes]
    · intro as h
      cases as with
      | nil => simp [buildRules, zipCompile, shapeLams]
      | cons a as2 =>
        have h1 : sizeOf a ≤ n := by simp at h; omega
        have h2 : sizeOf as2 ≤ n := by simp at h; omega
        rw [buildRules, zipCompile, shapeLams, ih.1 a h1, ih.2 as2 h2]

theorem lookup_concat_self (l : List (String × Lam)) (k : String) (v : Lam)
    (h : l.lookup k = none) : (l.concat (k, v)).lookup k = some v := by
  induction l with
  | nil => simp [List.lookup]
  | cons p l ih =>
    rcases p with ⟨k1, v1⟩
    rw [List.lookup] at h
    cases hk : (k == k1) with
    | true => rw [hk] at h; simp at h
    | false =>
      rw [hk] at h
      rw [List.concat_cons, List.lookup, hk]
      exact ih h

/-- C5: the unwrap rule for an operation name is derived at most once:
a call that finds the name cached leaves the state (cache and
derivation counter) unchanged, the first call on a fresh name runs the
derivation exactly once and caches its result under the name, and the
derivation is a function of the argument shape alone - two argument
lists with the same build_rule image compile to the same closure. -/
theorem C5_rule_cached_once :
    (∀ (hs : HookState) (attr : String) (args : List Arg)
        (st : HookState) (ca : CallAttempt),
      (hs.cache.lookup attr).isSome = true →
      overloaded_attr hs attr args = some (st, ca) → st = hs) ∧
    (∀ (hs : HookState) (attr : String) (args : List Arg)
        (st : HookState) (ca : CallAttempt),
      hs.cache.lookup attr = none →
      overloaded_attr hs attr args = some (st, ca) →
      st.derivations = hs.derivations + 1 ∧
      st.cache.lookup attr = build_args_hook args (buildRules args)) ∧
    (∀ (args args2 : List Arg), buildRules args = buildRules args2 →
      build_args_hook args (buildRules args) =
        build_args_hook args2 (buildRules args2)) := by
  refine ⟨?_, ?_, ?_⟩
  · intro hs attr args st ca hc h
    obtain ⟨l0, hl0⟩ := Option.isSome_iff_exists.mp hc
    rw [overloaded_attr, hl0] at h
    simp only [hl0] at h
    cases ha : applyLam l0 (Arg.tup args) with
    | none => rw [ha] at h; simp at h
    | some na =>
      rw [ha] at h
      simp at h
      exact h.1.symm
  · intro hs attr args st ca hn h
    rw [overloaded_attr, hn] at h
    cases hb : build_args_hook args (buildRules args) with
    | none => rw [hb] at h; simp at h
    | some fn =>
      rw [hb] at h
      have hlk : (hs.cache ++ [(attr, fn)]).lookup attr = some fn := by
        have h2 := lookup_concat_self hs.cache attr fn hn
        simpa using h2
      simp only [List.concat_eq_append] at h
      simp only [hlk] at h
      cases ha : applyLam fn (Arg.tup args) with
      | none => rw [ha] at h; simp at h
      | some na =>
        rw [ha] at h
        simp at h
        rw [← h.1]
        exact ⟨rfl, hlk⟩
  · intro args args2 hshape
    rw [build_args_hook, build_args_hook,
      (shape_agree (sizeOf args)).2 args le_rfl,
      (shape_agree (sizeOf args2)).2 args2 le_rfl, hshape]

theorem C5_witness :
    (HookState.mk [("add", Lam.nested2 Lam.unwrap Lam.ident)] 1 =
      HookState.mk [("add", Lam.nested2 Lam.unwrap Lam.ident)] 1) ∧
    ((HookState.mk [("add", Lam.nested2 Lam.unwrap Lam.ident)] 1).derivations =
        (HookState.mk [] 0).derivations + 1 ∧
      (HookState.mk [("add", Lam.nested2 Lam.unwrap Lam.ident)] 1).cache.lookup "add" =
        build_args_hook [Arg.ptr (Arg.base 2), Arg.base 4]
          (buildRules [Arg.ptr (Arg.base 2), Arg.base 4])) ∧
    build_args_hook [Arg.ptr (Arg.base 1)] (buildRules [Arg.ptr (Arg.base 1)]) =
      build_args_hook [Arg.ptr (Arg.base 2)] (buildRules [Arg.ptr (Arg.base 2)]) := by
  refine ⟨?_, ?_, ?_⟩
  · exact C5_rule_cached_once.1
      (HookState.mk [("add", Lam.nested2 Lam.unwrap Lam.ident)] 1)
      "add" [Arg.ptr (Arg.base 2), Arg.base 4]
      (HookState.mk [("add", Lam.nested2 Lam.unwrap Lam.ident)] 1)
      (CallAttempt.mk (PyCallable.strVal "add") (Arg.tup [Arg.base 2, Arg.base 4]))
      (by rfl) (by rfl)
  · exact C5_rule_cached_once.2.1 (HookState.mk [] 0) "add"
      [Arg.ptr (Arg.base 2), Arg.base 4]
      (HookState.mk [("add", Lam.nested2 Lam.unwrap Lam.ident)] 1)
      (CallAttempt.mk (PyCallable.strVal "add") (Arg.tup [Arg.base 2, Arg.base 4]))
      rfl
      (by simp [overloaded_attr, build_args_hook, buildRules, build_rule, zipCompile,
        mkLam, foldsLookup, applyLam, argElems, childOpt, List.lookup])
  · exact C5_rule_cached_once.2.2 [Arg.ptr (Arg.base 1)] [Arg.ptr (Arg.base 2)] rfl

/-- C1 (code bug): at the scenario add(pointerValue, 5) the trampoline
does apply the unwrap rule - the transformed arguments are
(pointerValue.child, 5) - but the value it then places in call
position is the operation-name string `attr` itself (hook.py line 209
reads `attr(*new_args)` where `attr` is the string captured by
get_overloaded_method), not the preserved native_add callable.  A
string is not callable, so the call raises TypeError and native_add is
never invoked. -/
theorem C1_trampoline_calls_name_string :
    overloaded_attr (HookState.mk [] 0) "add" [Arg.ptr (Arg.base 7), Arg.base 5] =
      some (HookState.mk [("add", Lam.nested2 Lam.unwrap Lam.ident)] 1,
        CallAttempt.mk (PyCallable.strVal "add") (Arg.tup [Arg.base 7, Arg.base 5])) ∧
    isCallable (PyCallable.strVal "add") = false := by
  constructor
  · simp [overloaded_attr, build_args_hook, buildRules, build_rule, zipCompile, mkLam,
      foldsLookup, applyLam, argElems, childOpt, List.lookup]
  · rfl

/-- C6: constructing a TorchHook against a torch module that already
carries the torch_hooked marker short-circuits - the trace is exactly
the warning, the local worker is the existing global one, and none of
the eligibility computation, renaming, property installation or method
copying runs - while on a first hook the marker is set as the first
step, before all of those. -/
theorem C6_marker_short_circuit (workerProvided : Bool) :
    (torchHookInit true workerProvided).steps = [InitStep.warnAlreadyHooked] ∧
    (torchHookInit true workerProvided).localWorker = WorkerRef.globalExisting ∧
    InitStep.computeAutoOverload ∉ (torchHookInit true workerProvided).steps ∧
    InitStep.renameNativeFunctions ∉ (torchHookInit true workerProvided).steps ∧
    InitStep.hookProperties ∉ (torchHookInit true workerProvided).steps ∧
    InitStep.addMethodsToTensor ∉ (torchHookInit true workerProvided).steps ∧
    InitStep.addMethodsToPointer ∉ (torchHookInit true workerProvided).steps ∧
    (torchHookInit false workerProvided).steps.head? = some InitStep.setMarker ∧
    InitStep.computeAutoOverload ∈ (torchHookInit false workerProvided).steps.tail ∧
    InitStep.renameNativeFunctions ∈ (torchHookInit false workerProvided).steps.tail ∧
    InitStep.hookProperties ∈ (torchHookInit false workerProvided).steps.tail ∧
    InitStep.addMethodsToTensor ∈ (torchHookInit false workerProvided).steps.tail ∧
    InitStep.addMethodsToPointer ∈ (torchHookInit false workerProvided).steps.tail := by
  cases workerProvided <;> exact ⟨rfl, rfl, by decide, by decide, by decide, by decide,
    by decide, rfl, by decide, by decide, by decide, by decide, by decide⟩

/-- C10: the replacement constructor accepts the keyword parameters
owner, id and register; owner and register are never read (the
registration call is commented out in the source), no registration
with any worker occurs, and the only effect is the single call to the
uniform initializer with the id, the captured torch_tensor flag and
the remaining construction arguments. -/
theorem C10_owner_register_inert (torch_tensor : Bool) (cls : Nat)
    (owner owner2 : Option Nat) (id : Option Nat) (register register2 : Bool)
    (args : List Nat) (kwargs : List (String × Nat)) :
    (new___init__ torch_tensor cls owner id register args kwargs).registeredWith = none ∧
    new___init__ torch_tensor cls owner id register args kwargs =
      new___init__ torch_tensor cls owner2 id register2 args kwargs ∧
    (new___init__ torch_tensor cls owner id register args kwargs).initCall =
      InitTensorCall.mk cls id torch_tensor args kwargs :=
  ⟨rfl, rfl, rfl⟩

/-- C7 counterexample: the claim misstates the code on two points.  A
method descriptor whose qualified name contains the service marker is
eligible (the descriptor disjunct short-circuits before the service
test), although the claim requires every eligible name to pass the
service test; and the regex native* excludes every name starting with
nativ (the star applies to the final e), although the claim only
excludes names matching the native alternate-name prefix - the name
nativity is excluded by the code but eligible per the claim. -/
theorem C7_cex :
    which_methods_should_we_auto_overload []
      [Candidate.mk "foo" true true false true false,
       Candidate.mk "nativity" true true false false false] = ["foo"] ∧
    claimed_overload_condition [] (Candidate.mk "foo" true true false true false) = false ∧
    claimed_overload_condition []
      (Candidate.mk "nativity" true true false false false) = true := by
  refine ⟨?_, rfl, ?_⟩ <;> decide

theorem eligible_condition_decompose (exclude : List String) (c : Candidate) :
    eligible_condition exclude c =
      (!(exclude.contains c.name) && (c.onTensor &&
        ((c.isDesc || (c.isFunc && !c.hasHookServiceQualname))
          && !c.isBase && !(nativeNameMatch c.name)))) := by
  rw [eligible_condition]
  cases exclude.contains c.name <;> cases c.onTensor <;> cases c.isDesc <;>
    cases c.isFunc <;> cases c.hasHookServiceQualname <;> cases c.isBase <;>
    cases nativeNameMatch c.name <;> rfl

/-- C7 (amended): a name appears in the eligible list iff some
candidate in dir of the reference type bears that name and is not in
the exclusion set, exists on the native tensor type, is a method
descriptor or is a plain function whose qualified name does not carry
the service marker, is not an attribute of the universal base object
type, and does not start with nativ (the anchored regex native* makes
the final e optional); in particular excluded names are never
eligible. -/
theorem C7_eligible_iff (exclude : List String) (dirSyft : List Candidate) (n : String) :
    (n ∈ which_methods_should_we_auto_overload exclude dirSyft ↔
      ∃ c ∈ dirSyft, c.name = n ∧ eligible_condition exclude c = true) ∧
    (exclude.contains n = true →
      n ∉ which_methods_should_we_auto_overload exclude dirSyft) := by
  have main : ∀ (ds : List Candidate),
      n ∈ which_methods_should_we_auto_overload exclude ds ↔
        ∃ c ∈ ds, c.name = n ∧ eligible_condition exclude c = true := by
    intro ds
    induction ds with
    | nil => simp [which_methods_should_we_auto_overload]
    | cons c cs ih =>
      rw [which_methods_should_we_auto_overload]
      cases h1 : exclude.contains c.name with
      | true =>
        rw [if_pos rfl, ih]
        constructor
        · rintro ⟨d, hd, hdn, hde⟩
          exact ⟨d, List.mem_cons_of_mem _ hd, hdn, hde⟩
        · rintro ⟨d, hd, hdn, hde⟩
          rcases List.mem_cons.mp hd with rfl | hd2
          · rw [eligible_condition_decompose, h1] at hde
            simp at hde
          · exact ⟨d, hd2, hdn, hde⟩
      | false =>
        rw [if_neg (by simp)]
        cases h2 : c.onTensor with
        | false =>
          rw [if_pos (show (!false) = true from rfl), ih]
          constructor
          · rintro ⟨d, hd, hdn, hde⟩
            exact ⟨d, List.mem_cons_of_mem _ hd, hdn, hde⟩
          · rintro ⟨d, hd, hdn, hde⟩
            rcases List.mem_cons.mp hd with rfl | hd2
            · rw [eligible_condition_decompose, h1, h2] at hde
              simp at hde
            · exact ⟨d, hd2, hdn, hde⟩
        | true =>
          rw [if_neg (by simp)]
          cases h3 : (c.isDesc || (c.isFunc && !c.hasHookServiceQualname))
              && !c.isBase && !(nativeNameMatch c.name) with
          | true =>
            rw [if_pos rfl]
            constructor
            · intro hx
              rcases List.mem_cons.mp hx with rfl | hx2
              · exact ⟨c, List.mem_cons_self _ _, rfl,
                  by rw [eligible_condition_decompose, h1, h2, h3]; rfl⟩
              · obtain ⟨d, hd, hdn, hde⟩ := ih.mp hx2
                exact ⟨d, List.mem_cons_of_mem _ hd, hdn, hde⟩
            · rintro ⟨d, hd, hdn, hde⟩
              rcases List.mem_cons.mp hd with rfl | hd2
              · exact hdn ▸ List.mem_cons_self _ _
              · exact List.mem_cons_of_mem _ (ih.mpr ⟨d, hd2, hdn, hde⟩)
          | false =>
            rw [if_neg (by simp), ih]
            constructor
            · rintro ⟨d, hd, hdn, hde⟩
              exact ⟨d, List.mem_cons_of_mem _ hd, hdn, hde⟩
            · rintro ⟨d, hd, hdn, hde⟩
              rcases List.mem_cons.mp hd with rfl | hd2
              · rw [eligible_condition_decompose, h1, h2, h3] at hde
                simp at hde
              · exact ⟨d, hd2, hdn, hde⟩
  refine ⟨main dirSyft, ?_⟩
  intro hc hmem
  obtain ⟨d, hd, hdn, hde⟩ := (main dirSyft).mp hmem
  rw [eligible_condition_decompose, hdn, hc] at hde
  simp at hde

theorem C7_witness :
    ("abs" ∈ which_methods_should_we_auto_overload ["__str__"]
        [Candidate.mk "abs" true true false false false]) ∧
    ("__str__" ∉ which_methods_should_we_auto_overload ["__str__"]
        [Candidate.mk "abs" true true false false false]) := by
  constructor
  · exact (C7_eligible_iff ["__str__"]
      [Candidate.mk "abs" true true false false false] "abs").1.mpr
      ⟨Candidate.mk "abs" true true false false false, List.mem_cons_self _ _, rfl,
        by decide⟩
  · exact (C7_eligible_iff ["__str__"]
      [Candidate.mk "abs" true true false false false] "__str__").2 (by decide)

theorem native_append_inj (a b : String)
    (h : "native_" ++ a = "native_" ++ b) : a = b := by
  have hd : ("native_" ++ a).data = ("native_" ++ b).data := congrArg String.data h
  rw [String.data_append, String.data_append] at hd
  have := List.append_cancel_left hd
  cases a
  cases b
  exact congrArg String.mk this

theorem tableSet_same (t : Table) (n : String) (v : Val) :
    tableSet t n v n = some v := by
  simp [tableSet]

theorem tableSet_other (t : Table) (n m : String) (v : Val) (h : m ≠ n) :
    tableSet t n v m = t m := by
  simp [tableSet, h]

theorem renameStep_other (t : Table) (c x : String)
    (h1 : x ≠ c) (h2 : x ≠ "native_" ++ c) : renameStep t c x = t x := by
  rw [renameStep]
  cases hn : t ("native_" ++ c) with
  | some w => simp [hn, tableSet, h1]
  | none =>
    cases hl : t c with
    | none => simp [hn, hl, tableSet, h1]
    | some v => simp [hn, hl, tableSet, h1, h2]

theorem rename_frame (names : List String) (t : Table) (x : String)
    (hx1 : x ∉ names) (hx2 : ∀ m ∈ names, x ≠ "native_" ++ m) :
    rename_native_functions t names x = t x := by
  induction names generalizing t with
  | nil => rfl
  | cons c cs ih =>
    have hstep : renameStep t c x = t x :=
      renameStep_other t c x
        (fun he => hx1 (he ▸ List.mem_cons_self _ _))
        (hx2 c (List.mem_cons_self _ _))
    have htail : rename_native_functions (renameStep t c) cs x = renameStep t c x :=
      ih (renameStep t c)
        (fun hm => hx1 (List.mem_cons_of_mem _ hm))
        (fun m hm => hx2 m (List.mem_cons_of_mem _ hm))
    show rename_native_functions (renameStep t c) cs x = t x
    rw [htail, hstep]

/-- C8: renaming preserves the original exactly once.  For every
eligible name - eligible names are distinct (dir enumerates each name
once) and never carry the native alternate-name prefix (the
eligibility regex excludes them) - the primary binding afterwards is
the inert None placeholder; if the alternate name was absent, the
alternate binding afterwards holds exactly the original primary
binding; and if the alternate name was already present, its binding is
left unchanged, so re-running never overwrites the preserved
original. -/
theorem C8_rename_preserves_once (t : Table) (names : List String) (attr : String)
    (hmem : attr ∈ names)
    (hnodup : names.Nodup)
    (hplain : ∀ n ∈ names, ∀ m, n ≠ "native_" ++ m) :
    rename_native_functions t names attr = some Val.pyNone ∧
    (t ("native_" ++ attr) = none →
      rename_native_functions t names ("native_" ++ attr) = t attr) ∧
    (∀ v, t ("native_" ++ attr) = some v →
      rename_native_functions t names ("native_" ++ attr) = some v) := by
  induction names generalizing t with
  | nil => cases hmem
  | cons c cs ih =>
    rcases List.mem_cons.mp hmem with rfl | hmem2
    · have hattr_plain := hplain attr (List.mem_cons_self _ _)
      have hattr_notin : attr ∉ cs := (List.nodup_cons.mp hnodup).1
      have hnative_notin : ("native_" ++ attr) ∉ cs := fun hm =>
        hplain _ (List.mem_cons_of_mem _ hm) attr rfl
      have hnat_ne : ∀ m ∈ cs, ("native_" ++ attr) ≠ "native_" ++ m := by
        intro m hm he
        have ham : attr = m := native_append_inj _ _ he
        exact hattr_notin (ham ▸ hm)
      have hne_an : ("native_" ++ attr) ≠ attr := fun he => hattr_plain attr he.symm
      have hframe_attr :
          rename_native_functions (renameStep t attr) cs attr =
            renameStep t attr attr :=
        rename_frame cs _ attr hattr_notin (fun m _ => hattr_plain m)
      have hframe_nat :
          rename_native_functions (renameStep t attr) cs ("native_" ++ attr) =
            renameStep t attr ("native_" ++ attr) :=
        rename_frame cs _ _ hnative_notin hnat_ne
      have hstep_attr : renameStep t attr attr = some Val.pyNone := by
        rw [renameStep]
        cases hn : t ("native_" ++ attr) with
        | some w => simp [hn, tableSet]
        | none =>
          cases hl : t attr with
          | none => simp [hn, hl, tableSet]
          | some v => simp [hn, hl, tableSet]
      have hstep_nat_none : t ("native_" ++ attr) = none →
          renameStep t attr ("native_" ++ attr) = t attr := by
        intro hn
        rw [renameStep]
        cases hl : t attr with
        | none => simp [hn, hl, tableSet, hne_an]
        | some v => simp [hn, hl, tableSet, hne_an]
      have hstep_nat_some : ∀ v, t ("native_" ++ attr) = some v →
          renameStep t attr ("native_" ++ attr) = some v := by
        intro v hn
        rw [renameStep]
        simp [hn, tableSet, hne_an]
      refine ⟨?_, ?_, ?_⟩
      · show rename_native_functions (renameStep t attr) cs attr = some Val.pyNone
        rw [hframe_attr, hstep_attr]
      · intro hn
        show rename_native_functions (renameStep t attr) cs ("native_" ++ attr) = t attr
        rw [hframe_nat, hstep_nat_none hn]
      · intro v hn
        show rename_native_functions (renameStep t attr) cs ("native_" ++ attr) = some v
        rw [hframe_nat, hstep_nat_some v hn]
    · have hca : attr ≠ c := fun he =>
        (List.nodup_cons.mp hnodup).1 (he ▸ hmem2)
      have hstep_attr : renameStep t c attr = t attr :=
        renameStep_other t c attr hca
          (hplain attr (List.mem_cons_of_mem _ hmem2) c)
      have hstep_nat : renameStep t c ("native_" ++ attr) = t ("native_" ++ attr) :=
        renameStep_other t c _
          (fun he => hplain c (List.mem_cons_self _ _) attr he.symm)
          (fun he => hca (native_append_inj _ _ he))
      obtain ⟨ih1, ih2, ih3⟩ := ih (renameStep t c) hmem2
        (List.nodup_cons.mp hnodup).2
        (fun n hn m => hplain n (List.mem_cons_of_mem _ hn) m)
      refine ⟨?_, ?_, ?_⟩
      · show rename_native_functions (renameStep t c) cs attr = some Val.pyNone
        exact ih1
      · intro hn
        show rename_native_functions (renameStep t c) cs ("native_" ++ attr) = t attr
        rw [ih2 (by rw [hstep_nat]; exact hn), hstep_attr]
      · intro v hn
        show rename_native_functions (renameStep t c) cs ("native_" ++ attr) = some v
        exact ih3 v (by rw [hstep_nat]; exact hn)

theorem C8_witness :
    rename_native_functions
      (fun n => if n = "add" then some (Val.fn 0) else none) ["add"] "add" =
        some Val.pyNone ∧
    rename_native_functions
      (fun n => if n = "add" then some (Val.fn 0) else none) ["add"]
        ("native_" ++ "add") =
      (fun n => if n = "add" then some (Val.fn 0) else none : Table) "add" := by
  have h := C8_rename_preserves_once
    (fun n => if n = "add" then some (Val.fn 0) else none) ["add"] "add"
    (List.mem_singleton.mpr rfl)
    (by simp)
    (by
      intro n hn m he
      rw [List.mem_singleton] at hn
      subst hn
      have h3 : ("add" : String).length = 3 := rfl
      have h7 : ("native_" : String).length = 7 := rfl
      have hlen := congrArg String.length he
      rw [String.length_append, h3, h7] at hlen
      omega)
  exact ⟨h.1, h.2.1 (by rfl)⟩

theorem copyStep_other (ref : Table) (t : Table) (c x : String) (h : x ≠ c) :
    copyStep ref t c x = t x := by
  rw [copyStep]
  by_cases he : mixin_exclude.contains c = true
  · rw [if_pos he]
  · rw [if_neg he]
    cases hr : ref c with
    | none => rfl
    | some v => exact tableSet_other _ _ _ _ h

theorem copy_frame (ref : Table) (dirRef : List String) (t : Table) (x : String)
    (hx : x ∉ dirRef) :
    add_methods_from_torch_tensor ref dirRef t x = t x := by
  induction dirRef generalizing t with
  | nil => rfl
  | cons c cs ih =>
    show add_methods_from_torch_tensor ref cs (copyStep ref t c) x = t x
    rw [ih (copyStep ref t c) (fun hm => hx (List.mem_cons_of_mem _ hm)),
      copyStep_other ref t c x (fun he => hx (he ▸ List.mem_cons_self _ _))]

theorem copy_frame_excluded (ref : Table) (dirRef : List String) (t : Table) (x : String)
    (hx : mixin_exclude.contains x = true) :
    add_methods_from_torch_tensor ref dirRef t x = t x := by
  induction dirRef generalizing t with
  | nil => rfl
  | cons c cs ih =>
    show add_methods_from_torch_tensor ref cs (copyStep ref t c) x = t x
    rw [ih (copyStep ref t c)]
    by_cases hc : x = c
    · subst hc
      rw [copyStep, if_pos hx]
    · exact copyStep_other ref t c x hc

theorem copy_sets_aux (ref : Table) (dirRef : List String) (t : Table) (x : String) (v : Val)
    (hex : mixin_exclude.contains x = false) (href : ref x = some v)
    (h : x ∈ dirRef ∨ t x = some v) :
    add_methods_from_torch_tensor ref dirRef t x = some v := by
  induction dirRef generalizing t with
  | nil =>
    rcases h with h | h
    · cases h
    · exact h
  | cons c cs ih =>
    show add_methods_from_torch_tensor ref cs (copyStep ref t c) x = some v
    by_cases hc : c = x
    · subst hc
      refine ih (copyStep ref t c) (Or.inr ?_)
      rw [copyStep, if_neg (by rw [hex]; exact Bool.false_ne_true), href]
      exact tableSet_same t c v
    · refine ih (copyStep ref t c) ?_
      rcases h with h | h
      · rcases List.mem_cons.mp h with rfl | h2
        · exact absurd rfl hc
        · exact Or.inl h2
      · exact Or.inr (by rw [copyStep_other ref t c x (fun he => hc he.symm)]; exact h)

/-- C9: the mixin installer copies onto the target every attribute name
of the reference implementation type except the fixed explicit
exclusion list: afterwards each copied name on the target holds
exactly the reference attribute, every excluded name and every name
outside the reference dir keeps its previous target binding, and
installing onto two different targets yields the same binding on every
copied name, so the native tensor type and the pointer type expose the
same operation surface. -/
theorem C9_mixin_copy (ref : Table) (dirRef : List String) (t1 t2 : Table) (x : String) :
    (∀ v, x ∈ dirRef → mixin_exclude.contains x = false → ref x = some v →
      add_methods_from_torch_tensor ref dirRef t1 x = some v) ∧
    (mixin_exclude.contains x = true →
      add_methods_from_torch_tensor ref dirRef t1 x = t1 x) ∧
    (x ∉ dirRef → add_methods_from_torch_tensor ref dirRef t1 x = t1 x) ∧
    (∀ v, x ∈ dirRef → mixin_exclude.contains x = false → ref x = some v →
      add_methods_from_torch_tensor ref dirRef t1 x =
        add_methods_from_torch_tensor ref dirRef t2 x) := by
  refine ⟨?_, ?_, ?_, ?_⟩
  · intro v hmem hex href
    exact copy_sets_aux ref dirRef t1 x v hex href (Or.inl hmem)
  · intro hx
    exact copy_frame_excluded ref dirRef t1 x hx
  · intro hx
    exact copy_frame ref dirRef t1 x hx
  · intro v hmem hex href
    rw [copy_sets_aux ref dirRef t1 x v hex href (Or.inl hmem),
      copy_sets_aux ref dirRef t2 x v hex href (Or.inl hmem)]

theorem C9_witness :
    add_methods_from_torch_tensor
      (fun n => if n = "abs" then some (Val.fn 3) else none) ["abs"]
      (fun _ => none) "abs" = some (Val.fn 3) ∧
    add_methods_from_torch_tensor
      (fun n => if n = "abs" then some (Val.fn 3) else none) ["abs"]
      (fun _ => none) "abs" =
      add_methods_from_torch_tensor
        (fun n => if n = "abs" then some (Val.fn 3) else none) ["abs"]
        (fun n => if n = "abs" then some (Val.fn 9) else none) "abs" := by
  have h := C9_mixin_copy
    (fun n => if n = "abs" then some (Val.fn 3) else none) ["abs"]
    (fun _ => none)
    (fun n => if n = "abs" then some (Val.fn 9) else none) "abs"
  exact ⟨h.1 (Val.fn 3) (List.mem_singleton.mpr rfl) (by decide) rfl,
    h.2.2.2 (Val.fn 3) (List.mem_singleton.mpr rfl) (by decide) rfl⟩
